import Mathlib

set_option maxRecDepth 4000

/-!
Shallow embedding of `src/PythonApplication6.py`, a single-file disk-resident
B-tree index store.  Files are modelled as byte lists (`List Nat`, each entry
a byte value), machine integers as `Nat` (Python's `int.to_bytes(8, 'big')`
raises on values `≥ 2^64`; theorems that need the codec therefore carry
explicit `< 2^64` validity hypotheses).  Fallible reads return `Option`.
The interactive prompts (`input(...)`) and printing are external I/O glue;
the embedding models every state change and every reported outcome of the
core operations.
-/

/-- `BLOCK_SIZE = 512` from the source. -/
def BLOCK_SIZE : Nat := 512

/-- `MAGIC_NUMBER = b'4337PRJ3'` as its byte values. -/
def MAGIC_NUMBER : List Nat := [52, 51, 51, 55, 80, 82, 74, 51]

/-- `MAX_KEYS = 19` from the source. -/
def MAX_KEYS : Nat := 19

/-- `MAX_CHILDREN = 20` from the source. -/
def MAX_CHILDREN : Nat := 20

/-- `to_big_endian(value, length)`: Python's `value.to_bytes(length, 'big')`,
most significant byte first.  (Python raises `OverflowError` when
`value ≥ 256^length`; this total model is only used under that bound.) -/
def to_big_endian : Nat → Nat → List Nat
  | _, 0 => []
  | v, n + 1 => to_big_endian (v / 256) n ++ [v % 256]

/-- `from_big_endian(bytes)`: Python's `int.from_bytes(bytes, 'big')`. -/
def from_big_endian (bs : List Nat) : Nat :=
  bs.foldl (fun acc b => acc * 256 + b) 0

/-- In-memory B-tree node, mirroring class `BTreeNode`. -/
structure BTreeNode where
  block_id : Nat
  parent_id : Nat
  num_keys : Nat
  keys : List Nat
  values : List Nat
  children : List Nat
deriving DecidableEq, Repr

/-- `BTreeNode.to_bytes`: serialize `block_id`, `parent_id`, `num_keys`,
the 19 keys, 19 values and 20 children as 8-byte big-endian integers and
pad with zero bytes to `BLOCK_SIZE`. -/
def BTreeNode.to_bytes (n : BTreeNode) : List Nat :=
  let node_bytes :=
    to_big_endian n.block_id 8 ++ to_big_endian n.parent_id 8 ++
    to_big_endian n.num_keys 8 ++
    (n.keys.map (fun k => to_big_endian k 8)).flatten ++
    (n.values.map (fun v => to_big_endian v 8)).flatten ++
    (n.children.map (fun c => to_big_endian c 8)).flatten
  node_bytes ++ List.replicate (BLOCK_SIZE - node_bytes.length) 0

/-- Python slice `data[a:b]`. -/
def sliceBytes (data : List Nat) (a b : Nat) : List Nat :=
  (data.drop a).take (b - a)

/-- `BTreeNode.from_bytes(data)`: rebuild every field from the fixed byte
offsets used in the source (`24 + i*8` for keys, `176 + i*8` for values,
`328 + i*8` for children). -/
def BTreeNode.from_bytes (data : List Nat) : BTreeNode :=
  { block_id := from_big_endian (sliceBytes data 0 8)
    parent_id := from_big_endian (sliceBytes data 8 16)
    num_keys := from_big_endian (sliceBytes data 16 24)
    keys := (List.range MAX_KEYS).map
      (fun i => from_big_endian (sliceBytes data (24 + i * 8) (32 + i * 8)))
    values := (List.range MAX_KEYS).map
      (fun i => from_big_endian (sliceBytes data (176 + i * 8) (184 + i * 8)))
    children := (List.range MAX_CHILDREN).map
      (fun i => from_big_endian (sliceBytes data (328 + i * 8) (336 + i * 8))) }

/-- Well-formedness of a node's in-memory fields: the list shapes produced by
the constructor and decoder, with every numeric field inside the `u64`
domain required by `int.to_bytes(8, 'big')`. -/
def BTreeNode.wf (n : BTreeNode) : Prop :=
  n.keys.length = 19 ∧ n.values.length = 19 ∧ n.children.length = 20 ∧
  n.block_id < 2 ^ 64 ∧ n.parent_id < 2 ^ 64 ∧ n.num_keys < 2 ^ 64 ∧
  (∀ k ∈ n.keys, k < 2 ^ 64) ∧ (∀ v ∈ n.values, v < 2 ^ 64) ∧
  (∀ c ∈ n.children, c < 2 ^ 64)

instance (n : BTreeNode) : Decidable n.wf := by
  unfold BTreeNode.wf; infer_instance

/-- Write `d` into byte list `f` at offset `pos`, zero-filling any gap past
the current end of file (POSIX sparse-write semantics of `seek` + `write`). -/
def writeAt (f : List Nat) (pos : Nat) (d : List Nat) : List Nat :=
  f.take pos ++ List.replicate (pos - f.length) 0 ++ d ++ f.drop (pos + d.length)

/-- Read up to `len` bytes of `f` from offset `pos` (a short read returns
whatever is available, as Python's `file.read`). -/
def readAt (f : List Nat) (pos len : Nat) : List Nat :=
  (f.drop pos).take len

/-- The state of `IndexFileManager` with an open backing file: the file's
bytes plus the in-memory header fields (`__init__` sets
`root_block_id = 0`, `next_block_id = 1`). -/
structure IndexFileManager where
  file : List Nat
  root_block_id : Nat
  next_block_id : Nat
deriving DecidableEq, Repr

/-- `_write_header`: write `MAGIC_NUMBER`, `root_block_id`, `next_block_id`
zero-padded to one block at offset 0. -/
def IndexFileManager.write_header (m : IndexFileManager) : IndexFileManager :=
  let header := MAGIC_NUMBER ++ to_big_endian m.root_block_id 8 ++
    to_big_endian m.next_block_id 8
  { m with file := writeAt m.file 0 (header ++ List.replicate (BLOCK_SIZE - header.length) 0) }

/-- `create`, after the overwrite prompt (an external concern) has been
confirmed: `open(filename, 'wb+')` truncates the backing file to empty, then
`_write_header()` writes the manager's current header fields.  Note that the
in-memory `root_block_id` / `next_block_id` are *not* reset here; they were
last set by `__init__`, `open` or `insert`. -/
def IndexFileManager.create (m : IndexFileManager) : IndexFileManager :=
  IndexFileManager.write_header { m with file := [] }

/-- `_write_node(node)`: write the encoded node at `node.block_id * BLOCK_SIZE`. -/
def IndexFileManager.write_node (m : IndexFileManager) (node : BTreeNode) : IndexFileManager :=
  { m with file := writeAt m.file (node.block_id * BLOCK_SIZE) node.to_bytes }

/-- `_read_node(block_id)`: read `BLOCK_SIZE` bytes at
`block_id * BLOCK_SIZE`; `none` models the `ValueError` raised on a short
read, otherwise decode.  (The source has no special case for `block_id = 0`:
if a full block is available at offset 0 it is decoded like any other.) -/
def IndexFileManager.read_node (m : IndexFileManager) (block_id : Nat) : Option BTreeNode :=
  if (readAt m.file (block_id * BLOCK_SIZE) BLOCK_SIZE).length < BLOCK_SIZE then none
  else some (BTreeNode.from_bytes (readAt m.file (block_id * BLOCK_SIZE) BLOCK_SIZE))

/-- The outcome reported by `insert` (the source reports via `print`). -/
inductive InsertResult
  /-- "Inserted (k, v) into the new root node." -/
  | newRoot
  /-- "Inserted (k, v) into node {block_id}." -/
  | intoNode (block_id : Nat)
  /-- "Error: Node splitting is not implemented yet." -/
  | splitError
  /-- the `ValueError` raised by `_read_node` propagates out of `insert` -/
  | readError
deriving DecidableEq, Repr

/-- The fresh root node built by `insert` on an empty tree:
`BTreeNode(next_block_id)` with `num_keys = 1`, `keys[0] = key`,
`values[0] = value`. -/
def newRootNode (bid k v : Nat) : BTreeNode :=
  { block_id := bid, parent_id := 0, num_keys := 1,
    keys := (List.replicate MAX_KEYS 0).set 0 k,
    values := (List.replicate MAX_KEYS 0).set 0 v,
    children := List.replicate MAX_CHILDREN 0 }

/-- The in-place mutation of the in-room branch of `insert`:
`keys[num_keys] = key; values[num_keys] = value; num_keys += 1`
(an unsorted append at index `num_keys`, with no duplicate check). -/
def nodeIns (node : BTreeNode) (key value : Nat) : BTreeNode :=
  { node with keys := node.keys.set node.num_keys key,
              values := node.values.set node.num_keys value,
              num_keys := node.num_keys + 1 }

/-- `insert(key, value)`: empty tree → write a fresh one-key root at
`next_block_id`, set it as root, bump `next_block_id`.  Otherwise read the
root node; with room (`num_keys < MAX_KEYS`) store the pair at index
`num_keys` (no sorting, no duplicate check) and persist; with a full root
report the split error and change nothing. -/
def IndexFileManager.insert (m : IndexFileManager) (key value : Nat) :
    IndexFileManager × InsertResult :=
  if m.root_block_id = 0 then
    let root := newRootNode m.next_block_id key value
    let m' := IndexFileManager.write_node m root
    ({ m' with root_block_id := m.next_block_id, next_block_id := m.next_block_id + 1 },
      InsertResult.newRoot)
  else
    match IndexFileManager.read_node m m.root_block_id with
    | none => (m, InsertResult.readError)
    | some node =>
      if node.num_keys < MAX_KEYS then
        (IndexFileManager.write_node m (nodeIns node key value),
          InsertResult.intoNode (nodeIns node key value).block_id)
      else
        (m, InsertResult.splitError)

/-- The outcome reported by `search`. -/
inductive SearchResult
  /-- "Found key k with value v in node {block_id}." -/
  | found (block_id value : Nat)
  /-- "Key k not found." -/
  | notFound
  /-- "Error: No index file is open or the tree is empty." -/
  | emptyTree
  /-- the `ValueError` raised by `_read_node` propagates out of `search` -/
  | readError
  /-- fuel exhausted (models the loop running forever on a cyclic file) -/
  | outOfFuel
deriving DecidableEq, Repr

/-- The scan `for i in range(num_keys): if keys[i] == key: return values[i]`
run on the first `num_keys` entries of the parallel key/value lists. -/
def scanPairs : List Nat → List Nat → Nat → Option Nat
  | [], _, _ => none
  | _, [], _ => none
  | k :: ks, v :: vs, key => if k = key then some v else scanPairs ks vs key

/-- One node's linear key scan inside `search`. -/
def nodeSearch (node : BTreeNode) (key : Nat) : Option Nat :=
  scanPairs (node.keys.take node.num_keys) (node.values.take node.num_keys) key

/-- The `while node:` loop of `search`: scan the current node; on a miss,
follow `next((child for child in node.children if child != 0), None)` — the
*first non-zero child pointer*, wherever it sits — or stop with "not found"
when every child is zero. -/
def searchLoop (m : IndexFileManager) (key : Nat) : Nat → Nat → SearchResult
  | 0, _ => SearchResult.outOfFuel
  | fuel + 1, bid =>
    match IndexFileManager.read_node m bid with
    | none => SearchResult.readError
    | some node =>
      match nodeSearch node key with
      | some value => SearchResult.found node.block_id value
      | none =>
        match node.children.find? (fun c => c != 0) with
        | none => SearchResult.notFound
        | some c => searchLoop m key fuel c

/-- `search(key)`: empty-tree guard, then the scan/descend loop from the
root.  `fuel` bounds the number of node visits. -/
def IndexFileManager.search (m : IndexFileManager) (key : Nat) (fuel : Nat) : SearchResult :=
  if m.root_block_id = 0 then SearchResult.emptyTree
  else searchLoop m key fuel m.root_block_id

/-- The key/value pairs a node contributes to `extract` (and `print_tree`):
`(keys[i], values[i])` for `i in range(num_keys)`. -/
def pairsOf (node : BTreeNode) : List (Nat × Nat) :=
  (node.keys.take node.num_keys).zip (node.values.take node.num_keys)

/-- Sequence a traversal function over a child list, concatenating the
emitted pairs left to right (`none` propagates a failed read / exhausted
fuel). -/
def extractList (f : Nat → Option (List (Nat × Nat))) : List Nat → Option (List (Nat × Nat))
  | [] => some []
  | c :: cs =>
    match f c with
    | none => none
    | some l =>
      match extractList f cs with
      | none => none
      | some r => some (l ++ r)

/-- The recursive `traverse(node_id)` of `extract`: a zero id contributes
nothing; otherwise read the node, emit its pairs, then recurse into
`node.children[:node.num_keys + 1]` left to right.  (`print_tree` walks the
same `children[:num_keys + 1]` slice.)  `fuel` bounds recursion depth. -/
def extractGo (m : IndexFileManager) (fuel bid : Nat) : Option (List (Nat × Nat)) :=
  if bid = 0 then some []
  else match fuel with
    | 0 => none
    | fuel' + 1 =>
      match IndexFileManager.read_node m bid with
      | none => none
      | some node =>
        (extractList (extractGo m fuel') (node.children.take (node.num_keys + 1))).map
          (fun rest => pairsOf node ++ rest)

/-- `extract(filename)` body (file creation and the overwrite prompt are
external I/O): the pair stream written out, starting at the root. -/
def IndexFileManager.extract (m : IndexFileManager) (fuel : Nat) : Option (List (Nat × Nat)) :=
  extractGo m fuel m.root_block_id

/-- Modelled from the spec: the pre-order emission the spec describes for
`extract`/`print` — "visit the current node's keys/values, then recursively
visit each non-zero child in left-to-right order" (over the whole `children`
array, not the source's `children[:num_keys + 1]` slice). -/
def preorderSpec (m : IndexFileManager) (fuel bid : Nat) : Option (List (Nat × Nat)) :=
  if bid = 0 then some []
  else match fuel with
    | 0 => none
    | fuel' + 1 =>
      match IndexFileManager.read_node m bid with
      | none => none
      | some node =>
        (extractList (preorderSpec m fuel') (node.children.filter (fun c => c != 0))).map
          (fun rest => pairsOf node ++ rest)

/-- `l` padded with zeros to length `n` (shape of key/value arrays after a
run of in-order appends into the zero-initialised fixed arrays). -/
def padTo (n : Nat) (l : List Nat) : List Nat :=
  l ++ List.replicate (n - l.length) 0

/-- The root node produced by a run of at most 19 in-room inserts of the
pairs `ps` (in order) starting from an empty tree. -/
def nodeAfter (ps : List (Nat × Nat)) : BTreeNode :=
  { block_id := 1, parent_id := 0, num_keys := ps.length,
    keys := padTo MAX_KEYS (ps.map Prod.fst),
    values := padTo MAX_KEYS (ps.map Prod.snd),
    children := List.replicate MAX_CHILDREN 0 }

/-- The header block bytes for root id `r` and next id `n`. -/
def headerBytes (r n : Nat) : List Nat :=
  MAGIC_NUMBER ++ to_big_endian r 8 ++ to_big_endian n 8 ++ List.replicate 488 0

/-- Manager state straight out of `IndexFileManager.__init__` (no file
content yet). -/
def initialManager : IndexFileManager :=
  { file := [], root_block_id := 0, next_block_id := 1 }

/-- A store as produced by `create` on a brand-new manager. -/
def freshStore : IndexFileManager :=
  IndexFileManager.create initialManager

/-- Run `insert` over a list of pairs, keeping the manager state. -/
def insertAll (m : IndexFileManager) (ps : List (Nat × Nat)) : IndexFileManager :=
  ps.foldl (fun acc p => (IndexFileManager.insert acc p.1 p.2).1) m

/-- Nineteen distinct pairs `(1,10), (2,20), …, (19,190)` filling the root. -/
def pairs19 : List (Nat × Nat) :=
  (List.range 19).map (fun i => (i + 1, 10 * (i + 1)))

/-- The store state after filling the root with the 19 pairs of `pairs19`. -/
def m19 : IndexFileManager := insertAll freshStore pairs19

/-- A concrete valid node for the C5 witness. -/
def witnessNode : BTreeNode :=
  ⟨3, 1, 2, padTo 19 [10, 20], padTo 19 [100, 200], padTo 20 [1, 2, 4]⟩

/-- The two-insert sequence refuting the ordering invariant. -/
def psC2 : List (Nat × Nat) := [(20, 200), (10, 100)]

/-- The one-insert store used to refute duplicate rejection. -/
def mC3 : IndexFileManager := insertAll freshStore [(5, 50)]

/-- The manager state after `create A; insert (1, 10)`: `root_block_id = 1`,
`next_block_id = 2`. -/
def mPrior : IndexFileManager := insertAll freshStore [(1, 10)]

/-- Root of a hand-built two-level store: block 1, one key 10, children
blocks 2 and 3. -/
def nodeC4root : BTreeNode :=
  ⟨1, 0, 1, padTo 19 [10], padTo 19 [100], padTo 20 [2, 3]⟩

/-- First (left) child: block 2, one key 5, a leaf. -/
def nodeC4left : BTreeNode :=
  ⟨2, 1, 1, padTo 19 [5], padTo 19 [50], List.replicate 20 0⟩

/-- Second (right) child: block 3, one key 15, a leaf. -/
def nodeC4right : BTreeNode :=
  ⟨3, 1, 1, padTo 19 [15], padTo 19 [150], List.replicate 20 0⟩

/-- The hand-built two-level store holding keys 10 (root), 5 and 15. -/
def mC4 : IndexFileManager :=
  ⟨headerBytes 1 4 ++ (nodeC4root.to_bytes ++ (nodeC4left.to_bytes ++ nodeC4right.to_bytes)),
    1, 4⟩

/-- The bulk-load scenario store: pairs (7,70), (3,30), (9,90). -/
def m8 : IndexFileManager := insertAll freshStore [(7, 70), (3, 30), (9, 90)]


/-! ### Codec lemmas -/

theorem to_big_endian_length (v n : Nat) : (to_big_endian v n).length = n := by
  induction n generalizing v with
  | zero => rfl
  | succ n ih => simp [to_big_endian, ih]

theorem from_big_endian_concat (l : List Nat) (b : Nat) :
    from_big_endian (l ++ [b]) = from_big_endian l * 256 + b := by
  simp [from_big_endian, List.foldl_append]

theorem from_to_big_endian_mod (v n : Nat) :
    from_big_endian (to_big_endian v n) = v % 256 ^ n := by
  induction n generalizing v with
  | zero => simp [to_big_endian, from_big_endian, Nat.mod_one]
  | succ n ih =>
    rw [to_big_endian, from_big_endian_concat, ih]
    have h256 : (256 : Nat) ^ (n + 1) = 256 * 256 ^ n := by ring
    rw [h256, Nat.mod_mul]
    ring

theorem from_to_big_endian (v n : Nat) (h : v < 256 ^ n) :
    from_big_endian (to_big_endian v n) = v := by
  rw [from_to_big_endian_mod, Nat.mod_eq_of_lt h]

theorem take8_append (x : Nat) (rest : List Nat) :
    (to_big_endian x 8 ++ rest).take 8 = to_big_endian x 8 := by
  conv_lhs => rw [show (8 : Nat) = (to_big_endian x 8).length from (to_big_endian_length x 8).symm]
  exact List.take_left _ _

theorem drop8_append (x : Nat) (rest : List Nat) :
    (to_big_endian x 8 ++ rest).drop 8 = rest := by
  conv_lhs => rw [show (8 : Nat) = (to_big_endian x 8).length from (to_big_endian_length x 8).symm]
  exact List.drop_left _ _

theorem flatten_map_to_big_endian_length (l : List Nat) :
    ((l.map (fun k => to_big_endian k 8)).flatten).length = 8 * l.length := by
  induction l with
  | nil => rfl
  | cons x t ih =>
    simp only [List.map_cons, List.flatten_cons, List.length_append, to_big_endian_length, ih,
      List.length_cons]
    ring

theorem drop_flatten_all (l rest : List Nat) :
    ((l.map (fun k => to_big_endian k 8)).flatten ++ rest).drop (8 * l.length) = rest := by
  conv_lhs => rw [show 8 * l.length = ((l.map (fun k => to_big_endian k 8)).flatten).length from
    (flatten_map_to_big_endian_length l).symm]
  exact List.drop_left _ _

theorem flatten_extract (l rest : List Nat) (i : Nat) (hi : i < l.length) :
    (((l.map (fun k => to_big_endian k 8)).flatten ++ rest).drop (i * 8)).take 8
      = to_big_endian (l.getD i 0) 8 := by
  induction l generalizing i rest with
  | nil => simp at hi
  | cons x t ih =>
    cases i with
    | zero =>
      simp only [List.map_cons, List.flatten_cons, List.getD_cons_zero, Nat.zero_mul,
        List.drop_zero, List.append_assoc]
      exact take8_append x _
    | succ i =>
      have harith : (i + 1) * 8 = (to_big_endian x 8).length + i * 8 := by
        rw [to_big_endian_length]; ring
      simp only [List.map_cons, List.flatten_cons, List.getD_cons_succ, List.append_assoc, harith,
        List.drop_append]
      exact ih _ i (by simpa using hi)

theorem range_map_getD (l : List Nat) :
    (List.range l.length).map (fun i => l.getD i 0) = l := by
  induction l with
  | nil => rfl
  | cons x t ih =>
    rw [List.length_cons, List.range_succ_eq_map]
    simp only [List.map_cons, List.getD_cons_zero, List.map_map]
    have hcomp : ((fun i => (x :: t).getD i 0) ∘ Nat.succ) = fun i => t.getD i 0 := by
      funext i; simp
    rw [hcomp, ih]

theorem getD_lt_of_forall {l : List Nat} {i : Nat} (hb : ∀ k ∈ l, k < 2 ^ 64)
    (hi : i < l.length) : l.getD i 0 < 2 ^ 64 := by
  rw [List.getD_eq_getElem l 0 hi]
  exact hb _ (List.getElem_mem hi)

theorem from_bytes_layout (bid pid nk : Nat) (ks vs cs pad : List Nat)
    (hbid : bid < 2 ^ 64) (hpid : pid < 2 ^ 64) (hnk : nk < 2 ^ 64)
    (hks : ∀ k ∈ ks, k < 2 ^ 64) (hvs : ∀ v ∈ vs, v < 2 ^ 64) (hcs : ∀ c ∈ cs, c < 2 ^ 64)
    (hlk : ks.length = 19) (hlv : vs.length = 19) (hlc : cs.length = 20) :
    BTreeNode.from_bytes
      (to_big_endian bid 8 ++ (to_big_endian pid 8 ++ (to_big_endian nk 8 ++
        ((ks.map (fun k => to_big_endian k 8)).flatten ++
         ((vs.map (fun k => to_big_endian k 8)).flatten ++
          ((cs.map (fun k => to_big_endian k 8)).flatten ++ pad))))))
      = ⟨bid, pid, nk, ks, vs, cs⟩ := by
  have h256 : (256 : Nat) ^ 8 = 2 ^ 64 := by norm_num
  set K := (ks.map (fun k => to_big_endian k 8)).flatten with hK
  set V := (vs.map (fun k => to_big_endian k 8)).flatten with hV
  set Cc := (cs.map (fun k => to_big_endian k 8)).flatten with hCc
  set data := to_big_endian bid 8 ++ (to_big_endian pid 8 ++ (to_big_endian nk 8 ++
    (K ++ (V ++ (Cc ++ pad))))) with hdata
  have d8 : data.drop 8 = to_big_endian pid 8 ++ (to_big_endian nk 8 ++
      (K ++ (V ++ (Cc ++ pad)))) := by
    rw [hdata]; exact drop8_append _ _
  have d16 : data.drop 16 = to_big_endian nk 8 ++ (K ++ (V ++ (Cc ++ pad))) := by
    have h : data.drop 16 = (data.drop 8).drop 8 := by simp [List.drop_drop]
    rw [h, d8]; exact drop8_append _ _
  have d24 : data.drop 24 = K ++ (V ++ (Cc ++ pad)) := by
    have h : data.drop 24 = (data.drop 16).drop 8 := by simp [List.drop_drop]
    rw [h, d16]; exact drop8_append _ _
  have d176 : data.drop 176 = V ++ (Cc ++ pad) := by
    have h : data.drop 176 = (data.drop 24).drop 152 := by simp [List.drop_drop]
    rw [h, d24, hK, show (152 : Nat) = 8 * ks.length by rw [hlk]]
    exact drop_flatten_all _ _
  have d328 : data.drop 328 = Cc ++ pad := by
    have h : data.drop 328 = (data.drop 176).drop 152 := by simp [List.drop_drop]
    rw [h, d176, hV, show (152 : Nat) = 8 * vs.length by rw [hlv]]
    exact drop_flatten_all _ _
  simp only [BTreeNode.from_bytes, BTreeNode.mk.injEq]
  refine ⟨?_, ?_, ?_, ?_, ?_, ?_⟩
  · rw [show sliceBytes data 0 8 = data.take 8 by simp [sliceBytes], hdata, take8_append]
    exact from_to_big_endian _ 8 (h256 ▸ hbid)
  · rw [show sliceBytes data 8 16 = (data.drop 8).take 8 by simp [sliceBytes], d8, take8_append]
    exact from_to_big_endian _ 8 (h256 ▸ hpid)
  · rw [show sliceBytes data 16 24 = (data.drop 16).take 8 by simp [sliceBytes], d16, take8_append]
    exact from_to_big_endian _ 8 (h256 ▸ hnk)
  · rw [show MAX_KEYS = 19 from rfl, show (19 : Nat) = ks.length from hlk.symm]
    have hcongr : ∀ i ∈ List.range ks.length,
        from_big_endian (sliceBytes data (24 + i * 8) (32 + i * 8)) = ks.getD i 0 := by
      intro i hi
      rw [List.mem_range] at hi
      have hslice : sliceBytes data (24 + i * 8) (32 + i * 8) = ((data.drop 24).drop (i * 8)).take 8 := by
        unfold sliceBytes
        rw [show 32 + i * 8 - (24 + i * 8) = 8 by omega]
        congr 1
        exact (List.drop_drop _ _ _).symm
      rw [hslice, d24, hK, flatten_extract ks _ i hi]
      exact from_to_big_endian _ 8 (h256 ▸ getD_lt_of_forall hks hi)
    rw [List.map_congr_left hcongr, range_map_getD]
  · rw [show MAX_KEYS = 19 from rfl, show (19 : Nat) = vs.length from hlv.symm]
    have hcongr : ∀ i ∈ List.range vs.length,
        from_big_endian (sliceBytes data (176 + i * 8) (184 + i * 8)) = vs.getD i 0 := by
      intro i hi
      rw [List.mem_range] at hi
      have hslice : sliceBytes data (176 + i * 8) (184 + i * 8) = ((data.drop 176).drop (i * 8)).take 8 := by
        unfold sliceBytes
        rw [show 184 + i * 8 - (176 + i * 8) = 8 by omega]
        congr 1
        exact (List.drop_drop _ _ _).symm
      rw [hslice, d176, hV, flatten_extract vs _ i hi]
      exact from_to_big_endian _ 8 (h256 ▸ getD_lt_of_forall hvs hi)
    rw [List.map_congr_left hcongr, range_map_getD]
  · rw [show MAX_CHILDREN = 20 from rfl, show (20 : Nat) = cs.length from hlc.symm]
    have hcongr : ∀ i ∈ List.range cs.length,
        from_big_endian (sliceBytes data (328 + i * 8) (336 + i * 8)) = cs.getD i 0 := by
      intro i hi
      rw [List.mem_range] at hi
      have hslice : sliceBytes data (328 + i * 8) (336 + i * 8) = ((data.drop 328).drop (i * 8)).take 8 := by
        unfold sliceBytes
        rw [show 336 + i * 8 - (328 + i * 8) = 8 by omega]
        congr 1
        exact (List.drop_drop _ _ _).symm
      rw [hslice, d328, hCc, flatten_extract cs _ i hi]
      exact from_to_big_endian _ 8 (h256 ▸ getD_lt_of_forall hcs hi)
    rw [List.map_congr_left hcongr, range_map_getD]

theorem to_bytes_layout (n : BTreeNode) (hk : n.keys.length = 19) (hv : n.values.length = 19)
    (hc : n.children.length = 20) :
    n.to_bytes = to_big_endian n.block_id 8 ++ (to_big_endian n.parent_id 8 ++
      (to_big_endian n.num_keys 8 ++
        ((n.keys.map (fun k => to_big_endian k 8)).flatten ++
         ((n.values.map (fun k => to_big_endian k 8)).flatten ++
          ((n.children.map (fun c => to_big_endian c 8)).flatten ++ List.replicate 24 0))))) := by
  have hlen : (to_big_endian n.block_id 8 ++ to_big_endian n.parent_id 8 ++
      to_big_endian n.num_keys 8 ++
      (n.keys.map (fun k => to_big_endian k 8)).flatten ++
      (n.values.map (fun v => to_big_endian v 8)).flatten ++
      (n.children.map (fun c => to_big_endian c 8)).flatten).length = 488 := by
    simp only [List.length_append, to_big_endian_length, flatten_map_to_big_endian_length,
      hk, hv, hc]
  show (to_big_endian n.block_id 8 ++ to_big_endian n.parent_id 8 ++
      to_big_endian n.num_keys 8 ++
      (n.keys.map (fun k => to_big_endian k 8)).flatten ++
      (n.values.map (fun v => to_big_endian v 8)).flatten ++
      (n.children.map (fun c => to_big_endian c 8)).flatten) ++
    List.replicate (BLOCK_SIZE - (to_big_endian n.block_id 8 ++ to_big_endian n.parent_id 8 ++
      to_big_endian n.num_keys 8 ++
      (n.keys.map (fun k => to_big_endian k 8)).flatten ++
      (n.values.map (fun v => to_big_endian v 8)).flatten ++
      (n.children.map (fun c => to_big_endian c 8)).flatten).length) 0 = _
  rw [hlen]
  simp [BLOCK_SIZE, List.append_assoc]

theorem to_bytes_length (n : BTreeNode) (hk : n.keys.length = 19) (hv : n.values.length = 19)
    (hc : n.children.length = 20) : n.to_bytes.length = 512 := by
  rw [to_bytes_layout n hk hv hc]
  simp only [List.length_append, to_big_endian_length, flatten_map_to_big_endian_length,
    hk, hv, hc, List.length_replicate]

theorem from_bytes_to_bytes (n : BTreeNode) (h : n.wf) :
    BTreeNode.from_bytes n.to_bytes = n := by
  obtain ⟨bid, pid, nk, ks, vs, cs⟩ := n
  obtain ⟨hk, hv, hc, hb, hp, hn, hks, hvs, hcs⟩ := h
  rw [to_bytes_layout _ hk hv hc]
  exact from_bytes_layout bid pid nk ks vs cs _ hb hp hn hks hvs hcs hk hv hc

/-! ### File-level lemmas -/

theorem headerBytes_length (r n : Nat) : (headerBytes r n).length = 512 := by
  simp [headerBytes, MAGIC_NUMBER, to_big_endian_length]

theorem freshStore_file : freshStore.file = headerBytes 0 1 := by decide

theorem writeAt_append_end (f d : List Nat) : writeAt f f.length d = f ++ d := by
  unfold writeAt
  rw [List.take_length, Nat.sub_self, List.replicate_zero,
    List.drop_eq_nil_of_le (Nat.le_add_right _ _)]
  simp

theorem writeAt_exact (h b d : List Nat) (hlen : b.length = d.length) :
    writeAt (h ++ b) h.length d = h ++ d := by
  unfold writeAt
  rw [List.take_left, List.drop_append, show h.length - (h ++ b).length = 0 by
    simp [List.length_append], List.drop_eq_nil_of_le (le_of_eq hlen)]
  simp

theorem readAt_append (h b : List Nat) (len : Nat) :
    readAt (h ++ b) h.length len = b.take len := by
  unfold readAt
  rw [List.drop_left]

theorem read_node_isSome (m : IndexFileManager) (bid : Nat) :
    (IndexFileManager.read_node m bid).isSome = true ↔ bid * 512 + 512 ≤ m.file.length := by
  unfold IndexFileManager.read_node readAt
  split
  · next hcond =>
    simp only [List.length_take, List.length_drop, BLOCK_SIZE] at hcond
    simp only [Option.isSome_none, Bool.false_eq_true, false_iff]
    omega
  · next hcond =>
    simp only [List.length_take, List.length_drop, BLOCK_SIZE] at hcond
    simp only [Option.isSome_some, true_iff]
    omega

theorem read_node_of_le (m : IndexFileManager) (bid : Nat)
    (h : bid * 512 + 512 ≤ m.file.length) :
    IndexFileManager.read_node m bid
      = some (BTreeNode.from_bytes (readAt m.file (bid * 512) 512)) := by
  unfold IndexFileManager.read_node readAt
  rw [if_neg]
  · rfl
  · simp only [List.length_take, List.length_drop, BLOCK_SIZE]
    omega

theorem read_node_le_of_some {m : IndexFileManager} {bid : Nat} {node : BTreeNode}
    (h : IndexFileManager.read_node m bid = some node) :
    bid * 512 + 512 ≤ m.file.length := by
  rw [← read_node_isSome]
  rw [h]
  rfl

theorem read_node_header_append (hdr b : List Nat) (hh : hdr.length = 512)
    (hb : b.length = 512) (r nx : Nat) :
    IndexFileManager.read_node ⟨hdr ++ b, r, nx⟩ 1 = some (BTreeNode.from_bytes b) := by
  unfold IndexFileManager.read_node
  have hread : readAt (hdr ++ b) (1 * BLOCK_SIZE) BLOCK_SIZE = b := by
    rw [show (1 * BLOCK_SIZE : Nat) = hdr.length by rw [hh]; rfl, readAt_append,
      show (BLOCK_SIZE : Nat) = b.length by rw [hb]; rfl, List.take_length]
  simp only [hread, hb]
  rfl

theorem writeAt_block1 (hdr b d : List Nat) (hh : hdr.length = 512) (hb : b.length = 512)
    (hd : d.length = 512) : writeAt (hdr ++ b) 512 d = hdr ++ d := by
  rw [show (512 : Nat) = hdr.length by rw [hh]]
  exact writeAt_exact hdr b d (by rw [hb, hd])

/-! ### Unfolding lemmas for `insert` -/

theorem insert_empty (m : IndexFileManager) (k v : Nat) (h : m.root_block_id = 0) :
    IndexFileManager.insert m k v =
      ({ file := writeAt m.file (m.next_block_id * 512) (newRootNode m.next_block_id k v).to_bytes,
         root_block_id := m.next_block_id, next_block_id := m.next_block_id + 1 },
        InsertResult.newRoot) := by
  unfold IndexFileManager.insert
  rw [if_pos h]
  rfl

theorem insert_room (m : IndexFileManager) (k v : Nat) (node : BTreeNode)
    (h0 : ¬ m.root_block_id = 0)
    (hr : IndexFileManager.read_node m m.root_block_id = some node)
    (hroom : node.num_keys < MAX_KEYS) :
    IndexFileManager.insert m k v =
      (IndexFileManager.write_node m (nodeIns node k v),
        InsertResult.intoNode (nodeIns node k v).block_id) := by
  unfold IndexFileManager.insert
  rw [if_neg h0, hr]
  simp [hroom]

theorem insert_full (m : IndexFileManager) (k v : Nat) (node : BTreeNode)
    (h0 : ¬ m.root_block_id = 0)
    (hr : IndexFileManager.read_node m m.root_block_id = some node)
    (hfull : ¬ node.num_keys < MAX_KEYS) :
    IndexFileManager.insert m k v = (m, InsertResult.splitError) := by
  unfold IndexFileManager.insert
  rw [if_neg h0, hr]
  simp [hfull]

/-! ### The root node after a run of in-room inserts -/

theorem padTo_length (n : Nat) (l : List Nat) (h : l.length ≤ n) : (padTo n l).length = n := by
  unfold padTo
  simp
  omega

theorem padTo_nil (n : Nat) : padTo n [] = List.replicate n 0 := by
  simp [padTo]

theorem padTo_set (l : List Nat) (n k : Nat) (h : l.length < n) :
    (padTo n l).set l.length k = padTo n (l ++ [k]) := by
  unfold padTo
  rw [List.set_append, if_neg (lt_irrefl _), Nat.sub_self]
  have hrep : n - l.length = (n - (l.length + 1)) + 1 := by omega
  rw [hrep, List.replicate_succ, List.set_cons_zero]
  simp

theorem nodeAfter_wf (ps : List (Nat × Nat)) (hlen : ps.length ≤ 19)
    (hvalid : ∀ p ∈ ps, p.1 < 2 ^ 64 ∧ p.2 < 2 ^ 64) : (nodeAfter ps).wf := by
  refine ⟨?_, ?_, ?_, ?_, ?_, ?_, ?_, ?_, ?_⟩
  · exact padTo_length _ _ (by simpa using hlen)
  · exact padTo_length _ _ (by simpa using hlen)
  · simp [nodeAfter, MAX_CHILDREN]
  · norm_num [nodeAfter]
  · norm_num [nodeAfter]
  · show ps.length < 2 ^ 64
    calc ps.length ≤ 19 := hlen
    _ < 2 ^ 64 := by norm_num
  · intro k hk
    rcases List.mem_append.mp hk with hmem | hrep
    · obtain ⟨p, hp, rfl⟩ := List.mem_map.mp hmem
      exact (hvalid p hp).1
    · rw [(List.mem_replicate.mp hrep).2]
      norm_num
  · intro v hv
    rcases List.mem_append.mp hv with hmem | hrep
    · obtain ⟨p, hp, rfl⟩ := List.mem_map.mp hmem
      exact (hvalid p hp).2
    · rw [(List.mem_replicate.mp hrep).2]
      norm_num
  · intro c hc
    rw [(List.mem_replicate.mp hc).2]
    norm_num

theorem nodeAfter_bytes_length (ps : List (Nat × Nat)) (hlen : ps.length ≤ 19) :
    (nodeAfter ps).to_bytes.length = 512 :=
  to_bytes_length _ (padTo_length _ _ (by simpa using hlen))
    (padTo_length _ _ (by simpa using hlen)) (by simp [nodeAfter, MAX_CHILDREN])

theorem nodeIns_nodeAfter (l : List (Nat × Nat)) (p : Nat × Nat) (h : l.length < 19) :
    nodeIns (nodeAfter l) p.1 p.2 = nodeAfter (l ++ [p]) := by
  have hkeys : (padTo MAX_KEYS (l.map Prod.fst)).set l.length p.1
      = padTo MAX_KEYS ((l ++ [p]).map Prod.fst) := by
    rw [show l.length = (l.map Prod.fst).length by simp,
      padTo_set _ MAX_KEYS _ (by simpa [MAX_KEYS] using h)]
    simp
  have hvals : (padTo MAX_KEYS (l.map Prod.snd)).set l.length p.2
      = padTo MAX_KEYS ((l ++ [p]).map Prod.snd) := by
    rw [show l.length = (l.map Prod.snd).length by simp,
      padTo_set _ MAX_KEYS _ (by simpa [MAX_KEYS] using h)]
    simp
  unfold nodeIns nodeAfter
  simp only [BTreeNode.mk.injEq]
  simp [hkeys, hvals]

theorem insertAll_concat (m : IndexFileManager) (ps : List (Nat × Nat)) (p : Nat × Nat) :
    insertAll m (ps ++ [p]) = (IndexFileManager.insert (insertAll m ps) p.1 p.2).1 := by
  simp [insertAll, List.foldl_append]

theorem newRootNode_eq_nodeAfter (p : Nat × Nat) : newRootNode 1 p.1 p.2 = nodeAfter [p] := by
  have hkeys : (List.replicate MAX_KEYS 0).set 0 p.1 = padTo MAX_KEYS ([p].map Prod.fst) := by
    rw [← padTo_nil MAX_KEYS, show (0 : Nat) = ([] : List Nat).length from rfl,
      padTo_set [] MAX_KEYS p.1 (by norm_num [MAX_KEYS])]
    simp
  have hvals : (List.replicate MAX_KEYS 0).set 0 p.2 = padTo MAX_KEYS ([p].map Prod.snd) := by
    rw [← padTo_nil MAX_KEYS, show (0 : Nat) = ([] : List Nat).length from rfl,
      padTo_set [] MAX_KEYS p.2 (by norm_num [MAX_KEYS])]
    simp
  unfold newRootNode nodeAfter
  simp only [BTreeNode.mk.injEq]
  simp [hkeys, hvals]

theorem insertAll_spec (ps : List (Nat × Nat)) (hne : ps ≠ []) (hlen : ps.length ≤ 19)
    (hvalid : ∀ p ∈ ps, p.1 < 2 ^ 64 ∧ p.2 < 2 ^ 64) :
    insertAll freshStore ps =
      ⟨headerBytes 0 1 ++ (nodeAfter ps).to_bytes, 1, 2⟩ := by
  induction ps using List.reverseRecOn with
  | nil => exact absurd rfl hne
  | append_singleton l p ih =>
    rw [insertAll_concat]
    rcases eq_or_ne l [] with hl | hl
    · subst hl
      show (IndexFileManager.insert freshStore p.1 p.2).1 = _
      rw [insert_empty _ _ _ rfl]
      have hfile : writeAt freshStore.file (freshStore.next_block_id * 512)
          (newRootNode freshStore.next_block_id p.1 p.2).to_bytes
          = headerBytes 0 1 ++ (nodeAfter [p]).to_bytes := by
        rw [freshStore_file, show freshStore.next_block_id = 1 from rfl,
          show (1 * 512 : Nat) = (headerBytes 0 1).length by rw [headerBytes_length],
          writeAt_append_end, newRootNode_eq_nodeAfter]
      simp only [hfile]
      rfl
    · have hlenl : l.length < 19 := by
        simp only [List.length_append, List.length_singleton] at hlen
        omega
      have hvalid' : ∀ q ∈ l, q.1 < 2 ^ 64 ∧ q.2 < 2 ^ 64 :=
        fun q hq => hvalid q (List.mem_append.mpr (Or.inl hq))
      rw [ih hl (le_of_lt hlenl) hvalid']
      have hwf : (nodeAfter l).wf := nodeAfter_wf l (le_of_lt hlenl) hvalid'
      have hb : (nodeAfter l).to_bytes.length = 512 := nodeAfter_bytes_length l (le_of_lt hlenl)
      have hread : IndexFileManager.read_node
          ⟨headerBytes 0 1 ++ (nodeAfter l).to_bytes, 1, 2⟩ 1 = some (nodeAfter l) := by
        rw [read_node_header_append _ _ (headerBytes_length 0 1) hb, from_bytes_to_bytes _ hwf]
      rw [insert_room _ p.1 p.2 (nodeAfter l) (by norm_num) hread
        (by simpa [nodeAfter, MAX_KEYS] using hlenl)]
      rw [nodeIns_nodeAfter l p hlenl]
      unfold IndexFileManager.write_node
      have hnewlen : (nodeAfter (l ++ [p])).to_bytes.length = 512 :=
        nodeAfter_bytes_length _ (by simpa using hlen)
      have hfile : writeAt (headerBytes 0 1 ++ (nodeAfter l).to_bytes)
          ((nodeAfter (l ++ [p])).block_id * BLOCK_SIZE) (nodeAfter (l ++ [p])).to_bytes
          = headerBytes 0 1 ++ (nodeAfter (l ++ [p])).to_bytes := by
        rw [show (nodeAfter (l ++ [p])).block_id * BLOCK_SIZE = 512 from rfl]
        exact writeAt_block1 _ _ _ (headerBytes_length 0 1) hb hnewlen
      simp only [hfile]

/-! ### Search lemmas -/

theorem scanPairs_cons (q : Nat × Nat) (ks vs : List Nat) (k : Nat) :
    scanPairs (q.1 :: ks) (q.2 :: vs) k
      = if q.1 = k then some q.2 else scanPairs ks vs k := rfl

theorem scanPairs_mem (ps : List (Nat × Nat)) (k v : Nat)
    (hnodup : (ps.map Prod.fst).Nodup) (hmem : (k, v) ∈ ps) :
    scanPairs (ps.map Prod.fst) (ps.map Prod.snd) k = some v := by
  induction ps with
  | nil => simp at hmem
  | cons q tl ih =>
    simp only [List.map_cons] at hnodup ⊢
    rw [List.nodup_cons] at hnodup
    rw [scanPairs_cons]
    by_cases hq : q.1 = k
    · rw [if_pos hq]
      rcases List.mem_cons.mp hmem with heq | htl
      · rw [← heq]
      · exact absurd (List.mem_map.mpr ⟨(k, v), htl, hq.symm⟩) hnodup.1
    · rw [if_neg hq]
      apply ih hnodup.2
      rcases List.mem_cons.mp hmem with heq | htl
      · exact absurd (congrArg Prod.fst heq.symm) hq
      · exact htl

theorem scanPairs_not_mem (ks : List Nat) (k : Nat) (h : k ∉ ks) :
    ∀ vs, scanPairs ks vs k = none := by
  induction ks with
  | nil => intro vs; cases vs <;> rfl
  | cons a t ih =>
    intro vs
    cases vs with
    | nil => rfl
    | cons b bs =>
      rw [show scanPairs (a :: t) (b :: bs) k = if a = k then some b else scanPairs t bs k
        from rfl]
      rw [if_neg (fun he : a = k => h (List.mem_cons.mpr (Or.inl he.symm)))]
      exact ih (fun hk => h (List.mem_cons_of_mem a hk)) bs

theorem padTo_take (n : Nat) (l : List Nat) : (padTo n l).take l.length = l := by
  unfold padTo
  exact List.take_left _ _

theorem nodeSearch_nodeAfter (ps : List (Nat × Nat)) (k : Nat) :
    nodeSearch (nodeAfter ps) k = scanPairs (ps.map Prod.fst) (ps.map Prod.snd) k := by
  have h1 : (padTo MAX_KEYS (ps.map Prod.fst)).take ps.length = ps.map Prod.fst := by
    rw [show ps.length = (ps.map Prod.fst).length by simp]
    exact padTo_take _ _
  have h2 : (padTo MAX_KEYS (ps.map Prod.snd)).take ps.length = ps.map Prod.snd := by
    rw [show ps.length = (ps.map Prod.snd).length by simp]
    exact padTo_take _ _
  show scanPairs ((padTo MAX_KEYS (ps.map Prod.fst)).take ps.length)
    ((padTo MAX_KEYS (ps.map Prod.snd)).take ps.length) k = _
  rw [h1, h2]

theorem find_nonzero_replicate : (List.replicate 20 (0 : Nat)).find? (fun c => c != 0) = none := rfl

/-! ### Extraction order lemmas -/

theorem extractGo_zero_bid (m : IndexFileManager) (fuel : Nat) :
    extractGo m fuel 0 = some [] := by
  unfold extractGo
  simp

theorem extractList_congr_filter (m : IndexFileManager) (fuel : Nat)
    (hgo : ∀ bid, extractGo m fuel bid = preorderSpec m fuel bid) (l : List Nat) :
    extractList (extractGo m fuel) l
      = extractList (preorderSpec m fuel) (l.filter (fun c => c != 0)) := by
  induction l with
  | nil => rfl
  | cons c cs ih =>
    by_cases hc : c = 0
    · subst hc
      rw [show (0 :: cs).filter (fun c => c != 0) = cs.filter (fun c => c != 0) by simp]
      simp only [extractList, extractGo_zero_bid]
      rw [ih]
      cases extractList (preorderSpec m fuel) (cs.filter (fun c => c != 0)) <;> simp
    · rw [show (c :: cs).filter (fun c => c != 0) = c :: cs.filter (fun c => c != 0) by simp [hc]]
      simp only [extractList, hgo c, ih]

theorem extract_eq_preorder (m : IndexFileManager)
    (hwf : ∀ bid node, IndexFileManager.read_node m bid = some node →
      ∀ c ∈ node.children.drop (node.num_keys + 1), c = 0) :
    ∀ fuel bid, extractGo m fuel bid = preorderSpec m fuel bid := by
  intro fuel
  induction fuel with
  | zero =>
    intro bid
    unfold extractGo preorderSpec
    rfl
  | succ fuel ih =>
    intro bid
    unfold extractGo preorderSpec
    by_cases hb : bid = 0
    · simp [hb]
    · simp only [if_neg hb]
      cases hr : IndexFileManager.read_node m bid with
      | none => rfl
      | some node =>
        show Option.map (fun rest => pairsOf node ++ rest)
            (extractList (extractGo m fuel) (node.children.take (node.num_keys + 1)))
          = Option.map (fun rest => pairsOf node ++ rest)
            (extractList (preorderSpec m fuel) (node.children.filter (fun c => c != 0)))
        congr 1
        rw [extractList_congr_filter m fuel ih]
        congr 1
        have hsplit : node.children
            = node.children.take (node.num_keys + 1) ++ node.children.drop (node.num_keys + 1) :=
          (List.take_append_drop _ _).symm
        conv_rhs => rw [hsplit]
        rw [List.filter_append]
        have hnil : (node.children.drop (node.num_keys + 1)).filter (fun c => c != 0) = [] := by
          rw [List.filter_eq_nil_iff]
          intro a ha
          simp [hwf bid node hr a ha]
        rw [hnil, List.append_nil]

theorem searchLoop_succ (m : IndexFileManager) (key fuel bid : Nat) :
    searchLoop m key (fuel + 1) bid =
      match IndexFileManager.read_node m bid with
      | none => SearchResult.readError
      | some node =>
        match nodeSearch node key with
        | some value => SearchResult.found node.block_id value
        | none =>
          match node.children.find? (fun c => c != 0) with
          | none => SearchResult.notFound
          | some c => searchLoop m key fuel c := rfl

theorem searchLoop_found (m : IndexFileManager) (key fuel bid : Nat) (node : BTreeNode)
    (v : Nat) (hr : IndexFileManager.read_node m bid = some node)
    (hs : nodeSearch node key = some v) :
    searchLoop m key (fuel + 1) bid = SearchResult.found node.block_id v := by
  rw [searchLoop_succ, hr]
  simp only [hs]

theorem searchLoop_leaf_notFound (m : IndexFileManager) (key fuel bid : Nat) (node : BTreeNode)
    (hr : IndexFileManager.read_node m bid = some node)
    (hs : nodeSearch node key = none)
    (hf : node.children.find? (fun c => c != 0) = none) :
    searchLoop m key (fuel + 1) bid = SearchResult.notFound := by
  rw [searchLoop_succ, hr]
  simp only [hs, hf]

theorem searchLoop_descend (m : IndexFileManager) (key fuel bid : Nat) (node : BTreeNode)
    (c : Nat) (hr : IndexFileManager.read_node m bid = some node)
    (hs : nodeSearch node key = none)
    (hf : node.children.find? (fun c => c != 0) = some c) :
    searchLoop m key (fuel + 1) bid = searchLoop m key fuel c := by
  rw [searchLoop_succ, hr]
  simp only [hs, hf]

theorem insert_read_fail (m : IndexFileManager) (k v : Nat)
    (h0 : ¬ m.root_block_id = 0)
    (hr : IndexFileManager.read_node m m.root_block_id = none) :
    IndexFileManager.insert m k v = (m, InsertResult.readError) := by
  unfold IndexFileManager.insert
  rw [if_neg h0, hr]

/-! ### Claim theorems -/

/-- C5 (confirmed): for every node whose `block_id`, `parent_id`, `num_keys`,
`keys`, `values` and `children` fields are valid fixed-width unsigned
integers (and the lists have the codec's fixed arities), decoding the
encoding reproduces all fields exactly: `from_bytes (to_bytes n) = n`. -/
theorem c5_codec_roundtrip (n : BTreeNode) (h : n.wf) :
    BTreeNode.from_bytes n.to_bytes = n :=
  from_bytes_to_bytes n h

/-- Witness for C5 at a concrete node. -/
theorem c5_codec_roundtrip_witness :
    witnessNode.wf ∧ BTreeNode.from_bytes witnessNode.to_bytes = witnessNode :=
  ⟨by decide, c5_codec_roundtrip witnessNode (by decide)⟩

/-- C9 (confirmed): whenever the tree is non-empty and the root node read
from disk holds exactly `MAX_KEYS = 19` keys, `insert` reports the
split-unimplemented error and returns the manager completely unchanged —
same file bytes, same `root_block_id`, same `next_block_id`. -/
theorem c9_full_root_insert_noop (m : IndexFileManager) (k v : Nat) (node : BTreeNode)
    (h0 : m.root_block_id ≠ 0)
    (hr : IndexFileManager.read_node m m.root_block_id = some node)
    (hfull : node.num_keys = MAX_KEYS) :
    IndexFileManager.insert m k v = (m, InsertResult.splitError) :=
  insert_full m k v node h0 hr (by rw [hfull]; exact lt_irrefl _)

/-- Witness for C9 at the concrete 19-key store `m19`. -/
theorem c9_full_root_insert_noop_witness :
    IndexFileManager.insert m19 21 210 = (m19, InsertResult.splitError) := by
  have hm : m19 = ⟨headerBytes 0 1 ++ (nodeAfter pairs19).to_bytes, 1, 2⟩ :=
    insertAll_spec pairs19 (by decide) (by decide) (by decide)
  have hroot : m19.root_block_id = 1 := by rw [hm]
  have hread : IndexFileManager.read_node m19 m19.root_block_id = some (nodeAfter pairs19) := by
    rw [hroot, hm, read_node_header_append _ _ (headerBytes_length 0 1)
      (nodeAfter_bytes_length _ (by decide)),
      from_bytes_to_bytes _ (nodeAfter_wf _ (by decide) (by decide))]
  exact c9_full_root_insert_noop m19 21 210 (nodeAfter pairs19)
    (by rw [hroot]; exact one_ne_zero) hread (by decide)

/-- C1 (code_bug): the spec (and the source's own error message) intend the
20th insert into a full 19-key root to split the node; the code instead
prints "Error: Node splitting is not implemented yet." and changes nothing.
At the concrete 19-key store `m19`, inserting the 20th distinct key `20`
produces no split, no new nodes and no promoted key — the state is
returned untouched with the split error. -/
theorem c1_split_unimplemented :
    IndexFileManager.insert m19 20 200 = (m19, InsertResult.splitError) := by
  have hm : m19 = ⟨headerBytes 0 1 ++ (nodeAfter pairs19).to_bytes, 1, 2⟩ :=
    insertAll_spec pairs19 (by decide) (by decide) (by decide)
  have hroot : m19.root_block_id = 1 := by rw [hm]
  have hread : IndexFileManager.read_node m19 m19.root_block_id = some (nodeAfter pairs19) := by
    rw [hroot, hm, read_node_header_append _ _ (headerBytes_length 0 1)
      (nodeAfter_bytes_length _ (by decide)),
      from_bytes_to_bytes _ (nodeAfter_wf _ (by decide) (by decide))]
  exact insert_full m19 20 200 (nodeAfter pairs19) (by rw [hroot]; exact one_ne_zero)
    hread (by decide)

/-- C2 (code_bug): the spec intends `insert` to place each key at its sorted
position (shifting later slots right) so that `keys[0..num_keys)` stays
strictly ascending; the code appends at index `num_keys` without comparing.
Inserting 20 then 10 from an empty store leaves the root's populated key
prefix `[20, 10]`, which is not strictly ascending. -/
theorem c2_unsorted_append :
    IndexFileManager.read_node (insertAll freshStore psC2) 1 = some (nodeAfter psC2) ∧
    (nodeAfter psC2).keys.take (nodeAfter psC2).num_keys = [20, 10] ∧
    ¬ List.Sorted (· < ·) ((nodeAfter psC2).keys.take (nodeAfter psC2).num_keys) := by
  refine ⟨?_, by decide, by decide⟩
  have hm := insertAll_spec psC2 (by decide) (by decide) (by decide)
  rw [hm, read_node_header_append _ _ (headerBytes_length 0 1)
    (nodeAfter_bytes_length _ (by decide)),
    from_bytes_to_bytes _ (nodeAfter_wf _ (by decide) (by decide))]

/-- C3 (code_bug): the spec intends `insert` of an existing key to signal
`DuplicateKey` and leave the file byte-identical; the code has no duplicate
check.  Re-inserting key 5 into the store that already holds key 5 reports
a plain success (`intoNode 1`), rewrites the root block (the file is not
byte-identical), and leaves the root holding the key 5 twice. -/
theorem c3_duplicate_inserted :
    (IndexFileManager.insert mC3 5 60).2 = InsertResult.intoNode 1 ∧
    (IndexFileManager.insert mC3 5 60).1.file ≠ mC3.file ∧
    IndexFileManager.read_node (IndexFileManager.insert mC3 5 60).1 1
      = some (nodeAfter [(5, 50), (5, 60)]) := by
  have hm1 : mC3 = ⟨headerBytes 0 1 ++ (nodeAfter [(5, 50)]).to_bytes, 1, 2⟩ :=
    insertAll_spec _ (by decide) (by decide) (by decide)
  have hwf1 : (nodeAfter [(5, 50)]).wf := nodeAfter_wf _ (by decide) (by decide)
  have hwf2 : (nodeAfter [(5, 50), (5, 60)]).wf := nodeAfter_wf _ (by decide) (by decide)
  have hroot : mC3.root_block_id = 1 := by rw [hm1]
  have hread : IndexFileManager.read_node mC3 mC3.root_block_id = some (nodeAfter [(5, 50)]) := by
    rw [hroot, hm1, read_node_header_append _ _ (headerBytes_length 0 1)
      (nodeAfter_bytes_length _ (by decide)), from_bytes_to_bytes _ hwf1]
  have hins := insert_room mC3 5 60 (nodeAfter [(5, 50)])
    (by rw [hroot]; exact one_ne_zero) hread (by decide)
  have hni : nodeIns (nodeAfter [(5, 50)]) 5 60 = nodeAfter [(5, 50), (5, 60)] :=
    nodeIns_nodeAfter [(5, 50)] (5, 60) (by decide)
  have hfile : writeAt mC3.file 512 (nodeAfter [(5, 50), (5, 60)]).to_bytes
      = headerBytes 0 1 ++ (nodeAfter [(5, 50), (5, 60)]).to_bytes := by
    rw [show mC3.file = headerBytes 0 1 ++ (nodeAfter [(5, 50)]).to_bytes by rw [hm1]]
    exact writeAt_block1 _ _ _ (headerBytes_length 0 1)
      (nodeAfter_bytes_length _ (by decide)) (nodeAfter_bytes_length _ (by decide))
  have hstate : (IndexFileManager.insert mC3 5 60).1
      = ⟨headerBytes 0 1 ++ (nodeAfter [(5, 50), (5, 60)]).to_bytes, 1, 2⟩ := by
    rw [hins]
    show IndexFileManager.write_node mC3 (nodeIns (nodeAfter [(5, 50)]) 5 60) = _
    rw [hni]
    show (⟨writeAt mC3.file ((nodeAfter [(5, 50), (5, 60)]).block_id * BLOCK_SIZE)
        (nodeAfter [(5, 50), (5, 60)]).to_bytes, mC3.root_block_id, mC3.next_block_id⟩ :
      IndexFileManager) = _
    rw [show (nodeAfter [(5, 50), (5, 60)]).block_id * BLOCK_SIZE = 512 from rfl, hfile,
      hroot, show mC3.next_block_id = 2 by rw [hm1]]
  refine ⟨?_, ?_, ?_⟩
  · rw [hins]
    rfl
  · rw [hstate, hm1]
    intro heq
    have hb : (nodeAfter [(5, 50), (5, 60)]).to_bytes = (nodeAfter [(5, 50)]).to_bytes :=
      List.append_cancel_left heq
    have hnodes : nodeAfter [(5, 50), (5, 60)] = nodeAfter [(5, 50)] := by
      rw [← from_bytes_to_bytes (nodeAfter [(5, 50), (5, 60)]) hwf2,
        ← from_bytes_to_bytes (nodeAfter [(5, 50)]) hwf1, hb]
    have htwo : (2 : Nat) = 1 := congrArg BTreeNode.num_keys hnodes
    exact absurd htwo (by decide)
  · rw [hstate, read_node_header_append _ _ (headerBytes_length 0 1)
      (nodeAfter_bytes_length _ (by decide)), from_bytes_to_bytes _ hwf2]

/-- C6 (code_bug): the spec intends `create` to initialize the new file's
header with `root_block_id = 0` and `next_block_id = 1` regardless of prior
session state, but `create` only writes the manager's *current* in-memory
fields (they are set to 0/1 solely by `__init__`).  After `create A;
insert (1, 10); create B`, the header written to block 0 of B records
`root_block_id = 1` and `next_block_id = 2` — pointing at a block that does
not exist in the fresh file. -/
theorem c6_create_stale_header :
    from_big_endian (sliceBytes (IndexFileManager.create mPrior).file 8 16) = 1 ∧
    from_big_endian (sliceBytes (IndexFileManager.create mPrior).file 16 24) = 2 := by
  have hm : mPrior = ⟨headerBytes 0 1 ++ (nodeAfter [(1, 10)]).to_bytes, 1, 2⟩ :=
    insertAll_spec _ (by decide) (by decide) (by decide)
  have hcreate : (IndexFileManager.create mPrior).file = headerBytes 1 2 := by
    rw [show IndexFileManager.create mPrior
      = IndexFileManager.write_header ⟨[], mPrior.root_block_id, mPrior.next_block_id⟩ from rfl,
      hm]
    decide
  rw [hcreate]
  exact ⟨by decide, by decide⟩

/-- C7 counterexample: the claim says `read_node` fails when `block_id = 0`,
but the source has no such check — on a store whose file holds a full
header block, reading block 0 succeeds (it decodes the header bytes as a
node). -/
theorem c7_read_block0_succeeds :
    (IndexFileManager.read_node freshStore 0).isSome = true := by decide

/-- C7 (corrected): `read_node(store, block_id)` fails exactly when fewer
than 512 bytes are available at offset `block_id * 512`; there is no
`block_id = 0` special case.  When a full block is available the result is
the node decoded from exactly those 512 bytes. -/
theorem c7_read_node_short_only (m : IndexFileManager) (bid : Nat) :
    ((IndexFileManager.read_node m bid).isSome = true ↔ bid * 512 + 512 ≤ m.file.length) ∧
    (bid * 512 + 512 ≤ m.file.length →
      IndexFileManager.read_node m bid
        = some (BTreeNode.from_bytes (readAt m.file (bid * 512) 512))) :=
  ⟨read_node_isSome m bid, read_node_of_le m bid⟩

/-- Witness for C7 at the fresh store and block 0. -/
theorem c7_read_node_short_only_witness :
    IndexFileManager.read_node freshStore 0
      = some (BTreeNode.from_bytes (readAt freshStore.file 0 512)) :=
  (c7_read_node_short_only freshStore 0).2
    (by rw [freshStore_file, headerBytes_length])

theorem read_node_block (m : IndexFileManager) (bid : Nat) (pre b post : List Nat)
    (hfile : m.file = pre ++ (b ++ post)) (hpre : pre.length = bid * 512)
    (hb : b.length = 512) :
    IndexFileManager.read_node m bid = some (BTreeNode.from_bytes b) := by
  have hrd : readAt m.file (bid * 512) 512 = b := by
    rw [hfile, ← hpre]
    unfold readAt
    rw [List.drop_left]
    conv_lhs => rw [show (512 : Nat) = b.length from hb.symm]
    exact List.take_left _ _
  rw [read_node_of_le, hrd]
  rw [hfile]
  simp only [List.length_append, hpre, hb]
  omega

/-- C4 counterexample: a well-formed two-level store whose root (key 10)
has children blocks 2 (key 5) and 3 (key 15).  Key 15 is present in the
tree, in the child key comparison would select (15 > 10 → the child after
the key), yet `search` reports not-found: on a miss it descends into the
*first* non-zero child pointer (block 2) and stops at that leaf, so the
descent does not follow the child selected by key comparison. -/
theorem c4_descent_counterexample :
    IndexFileManager.search mC4 15 10 = SearchResult.notFound ∧
    IndexFileManager.read_node mC4 1 = some nodeC4root ∧
    nodeC4root.keys.take nodeC4root.num_keys = [10] ∧
    nodeC4root.children.take 2 = [2, 3] ∧
    IndexFileManager.read_node mC4 3 = some nodeC4right ∧
    nodeSearch nodeC4right 15 = some 150 := by
  have hb1 : nodeC4root.to_bytes.length = 512 := to_bytes_length _ (by decide) (by decide) (by decide)
  have hb2 : nodeC4left.to_bytes.length = 512 := to_bytes_length _ (by decide) (by decide) (by decide)
  have hb3 : nodeC4right.to_bytes.length = 512 := to_bytes_length _ (by decide) (by decide) (by decide)
  have hr1 : IndexFileManager.read_node mC4 1 = some nodeC4root := by
    rw [read_node_block mC4 1 (headerBytes 1 4) nodeC4root.to_bytes
      (nodeC4left.to_bytes ++ nodeC4right.to_bytes) rfl (headerBytes_length 1 4) hb1,
      from_bytes_to_bytes _ (by decide)]
  have hr2 : IndexFileManager.read_node mC4 2 = some nodeC4left := by
    rw [read_node_block mC4 2 (headerBytes 1 4 ++ nodeC4root.to_bytes) nodeC4left.to_bytes
      nodeC4right.to_bytes (by simp [mC4, List.append_assoc])
      (by rw [List.length_append, headerBytes_length, hb1]) hb2,
      from_bytes_to_bytes _ (by decide)]
  have hr3 : IndexFileManager.read_node mC4 3 = some nodeC4right := by
    rw [read_node_block mC4 3 (headerBytes 1 4 ++ (nodeC4root.to_bytes ++ nodeC4left.to_bytes))
      nodeC4right.to_bytes [] (by simp [mC4, List.append_assoc])
      (by rw [List.length_append, List.length_append, headerBytes_length, hb1, hb2]) hb3,
      from_bytes_to_bytes _ (by decide)]
  refine ⟨?_, hr1, by decide, by decide, hr3, by decide⟩
  show searchLoop mC4 15 10 1 = SearchResult.notFound
  rw [searchLoop_descend mC4 15 9 1 nodeC4root 2 hr1 (by decide) (by decide)]
  exact searchLoop_leaf_notFound mC4 15 8 2 nodeC4left hr2 (by decide) (by decide)

/-- C4 (corrected, amended): over any non-empty run of at most 19 inserts
with pairwise distinct keys from a fresh store (all of which succeed and
land in the single root node), `search` returns each inserted key's value
and reports not-found for keys never inserted; and in general, when a
node's linear scan misses, the loop descends into the node's *first
non-zero child pointer* (not a child selected by key comparison). -/
theorem c4_search_completeness (ps : List (Nat × Nat)) (hne : ps ≠ [])
    (hlen : ps.length ≤ 19) (hnodup : (ps.map Prod.fst).Nodup)
    (hvalid : ∀ p ∈ ps, p.1 < 2 ^ 64 ∧ p.2 < 2 ^ 64) :
    (∀ p ∈ ps, IndexFileManager.search (insertAll freshStore ps) p.1 1
      = SearchResult.found 1 p.2) ∧
    (∀ k, k ∉ ps.map Prod.fst →
      IndexFileManager.search (insertAll freshStore ps) k 1 = SearchResult.notFound) ∧
    (∀ (m : IndexFileManager) (key fuel bid : Nat) (node : BTreeNode) (c : Nat),
      IndexFileManager.read_node m bid = some node → nodeSearch node key = none →
      node.children.find? (fun c => c != 0) = some c →
      searchLoop m key (fuel + 1) bid = searchLoop m key fuel c) := by
  have hm := insertAll_spec ps hne hlen hvalid
  have hwf := nodeAfter_wf ps hlen hvalid
  have hread : IndexFileManager.read_node (insertAll freshStore ps) 1 = some (nodeAfter ps) := by
    rw [hm, read_node_header_append _ _ (headerBytes_length 0 1)
      (nodeAfter_bytes_length ps hlen), from_bytes_to_bytes _ hwf]
  have hroot : (insertAll freshStore ps).root_block_id = 1 := by rw [hm]
  refine ⟨?_, ?_, ?_⟩
  · intro p hp
    unfold IndexFileManager.search
    rw [if_neg (by rw [hroot]; exact one_ne_zero), hroot]
    exact searchLoop_found _ _ 0 1 (nodeAfter ps) p.2 hread
      (by rw [nodeSearch_nodeAfter]; exact scanPairs_mem ps p.1 p.2 hnodup hp)
  · intro k hk
    unfold IndexFileManager.search
    rw [if_neg (by rw [hroot]; exact one_ne_zero), hroot]
    exact searchLoop_leaf_notFound _ _ 0 1 (nodeAfter ps) hread
      (by rw [nodeSearch_nodeAfter]; exact scanPairs_not_mem _ k hk _)
      find_nonzero_replicate
  · intro m key fuel bid node c hr hs hf
    exact searchLoop_descend m key fuel bid node c hr hs hf

/-- Witness for C4 at the two-pair run (10,100), (20,200). -/
theorem c4_search_completeness_witness :
    (∀ p ∈ [((10 : Nat), (100 : Nat)), (20, 200)],
      IndexFileManager.search (insertAll freshStore [((10 : Nat), (100 : Nat)), (20, 200)]) p.1 1
        = SearchResult.found 1 p.2) ∧
    (∀ k, k ∉ [((10 : Nat), (100 : Nat)), (20, 200)].map Prod.fst →
      IndexFileManager.search (insertAll freshStore [((10 : Nat), (100 : Nat)), (20, 200)]) k 1
        = SearchResult.notFound) ∧
    (∀ (m : IndexFileManager) (key fuel bid : Nat) (node : BTreeNode) (c : Nat),
      IndexFileManager.read_node m bid = some node → nodeSearch node key = none →
      node.children.find? (fun c => c != 0) = some c →
      searchLoop m key (fuel + 1) bid = searchLoop m key fuel c) :=
  c4_search_completeness [(10, 100), (20, 200)] (by decide) (by decide) (by decide) (by decide)

/-- C8 (confirmed): over any store whose decodable nodes are well-formed in
the only respect the traversal relies on (child slots beyond index
`num_keys` are zero, as in every well-formed tree), the pair stream emitted
by `extract`'s recursive `traverse` — which visits a node's own key/value
pairs and then the slice `children[:num_keys + 1]` left to right — equals
the spec's pre-order emission over *all* non-zero children, visited left to
right, each node's own pairs coming before those of its children.  (No
global sortedness of the stream is implied.) -/
theorem c8_extract_preorder (m : IndexFileManager)
    (hwf : ∀ bid node, IndexFileManager.read_node m bid = some node →
      ∀ c ∈ node.children.drop (node.num_keys + 1), c = 0)
    (fuel bid : Nat) :
    extractGo m fuel bid = preorderSpec m fuel bid :=
  extract_eq_preorder m hwf fuel bid

/-- Witness for C8 at the three-pair store `m8`. -/
theorem c8_extract_preorder_witness : extractGo m8 2 1 = preorderSpec m8 2 1 := by
  have hm : m8 = ⟨headerBytes 0 1 ++ (nodeAfter [(7, 70), (3, 30), (9, 90)]).to_bytes, 1, 2⟩ :=
    insertAll_spec _ (by decide) (by decide) (by decide)
  apply c8_extract_preorder
  intro bid node hr
  have hle := read_node_le_of_some hr
  have hlen : m8.file.length = 1024 := by
    rw [hm]
    show (headerBytes 0 1 ++ (nodeAfter [(7, 70), (3, 30), (9, 90)]).to_bytes).length = 1024
    rw [List.length_append, headerBytes_length, nodeAfter_bytes_length _ (by decide)]
  rw [hlen] at hle
  have hbid : bid ≤ 1 := by omega
  interval_cases bid
  · have h0 : IndexFileManager.read_node m8 0
        = some (BTreeNode.from_bytes (headerBytes 0 1)) := by
      apply read_node_block m8 0 [] (headerBytes 0 1)
        ((nodeAfter [(7, 70), (3, 30), (9, 90)]).to_bytes)
      · rw [hm]
        rfl
      · rfl
      · exact headerBytes_length 0 1
    rw [h0] at hr
    obtain rfl := Option.some.inj hr
    decide
  · have h1 : IndexFileManager.read_node m8 1
        = some (nodeAfter [(7, 70), (3, 30), (9, 90)]) := by
      rw [hm, read_node_header_append _ _ (headerBytes_length 0 1)
        (nodeAfter_bytes_length _ (by decide)),
        from_bytes_to_bytes _ (nodeAfter_wf _ (by decide) (by decide))]
    rw [h1] at hr
    obtain rfl := Option.some.inj hr
    decide

/-- C10 (confirmed): a successful insert into an empty tree
(`root_block_id = 0`) writes the new root node — whose `block_id` is the
current `next_block_id` — at byte offset `next_block_id * 512`, sets
`root_block_id` to that id and increments `next_block_id` by exactly one;
and no `insert` ever decreases `next_block_id` (search and the traversals
are read-only: in this model they return results without producing a new
manager state). -/
theorem c10_alloc_monotone (m : IndexFileManager) (k v : Nat) :
    (m.root_block_id = 0 →
      IndexFileManager.insert m k v =
        (⟨writeAt m.file (m.next_block_id * 512) (newRootNode m.next_block_id k v).to_bytes,
          m.next_block_id, m.next_block_id + 1⟩, InsertResult.newRoot) ∧
      (newRootNode m.next_block_id k v).block_id = m.next_block_id) ∧
    m.next_block_id ≤ (IndexFileManager.insert m k v).1.next_block_id := by
  constructor
  · intro h0
    exact ⟨insert_empty m k v h0, rfl⟩
  · by_cases h0 : m.root_block_id = 0
    · rw [insert_empty m k v h0]
      exact Nat.le_succ _
    · cases hr : IndexFileManager.read_node m m.root_block_id with
      | none =>
        rw [insert_read_fail m k v h0 hr]
      | some node =>
        by_cases hroom : node.num_keys < MAX_KEYS
        · rw [insert_room m k v node h0 hr hroom]
          exact le_refl _
        · rw [insert_full m k v node h0 hr hroom]

/-- Witness for C10 at the fresh empty store. -/
theorem c10_alloc_monotone_witness :
    (IndexFileManager.insert freshStore 5 50 =
      (⟨writeAt freshStore.file (freshStore.next_block_id * 512)
          (newRootNode freshStore.next_block_id 5 50).to_bytes,
        freshStore.next_block_id, freshStore.next_block_id + 1⟩, InsertResult.newRoot) ∧
      (newRootNode freshStore.next_block_id 5 50).block_id = freshStore.next_block_id) ∧
    freshStore.next_block_id ≤ (IndexFileManager.insert freshStore 5 50).1.next_block_id :=
  ⟨(c10_alloc_monotone freshStore 5 50).1 rfl, (c10_alloc_monotone freshStore 5 50).2⟩
